import Mathlib

/-!
Verification of the `arffutils` utilities (ARFF metadata scanning and
re-emission, plus the merge / select / split row transformers).

The Python sources are modelled as pure Lean functions:

* a text stream is a `List String` of raw lines (each element is one line's
  content without its terminating newline; the byte content of a stream is
  `fileContent`, which re-appends one `"\n"` per line);
* the specific regular expressions used by `utils.get_metadata_if_arff` are
  translated into decidable predicates on strings (a `re.match` succeeds iff
  some decomposition of the string matches the pattern, which for the
  patterns at hand is spelled out explicitly below);
* fallible Python code (`IndexError`, `KeyError`, `ValueError`) is modelled
  with `Option`/`Except`;
* the one genuinely partial loop in the source (the metadata loop of
  `get_metadata_if_arff`, which keeps calling `readline` at end of file) is
  modelled twice: once fuel-indexed, mirroring the `while` loop literally,
  and once structurally on the remaining lines, with an explicit
  `ScanErr.noDataLine` marker for the inputs on which the fuel-indexed loop
  never returns;
* `csv.reader` / `csv.writer` are modelled for the quoting-free fragment the
  utilities rely on (fields containing no delimiter, quote or newline):
  splitting on the delimiter character and joining with it.
-/

namespace Arffutils

/-- Decidable equality on `Except`, needed to settle concrete runs of the
fallible models by `decide`. -/
instance {ε α : Type} [DecidableEq ε] [DecidableEq α] : DecidableEq (Except ε α) := fun a b =>
  match a, b with
  | .ok x, .ok y =>
    if h : x = y then .isTrue (by rw [h]) else .isFalse (by intro hc; cases hc; exact h rfl)
  | .error x, .error y =>
    if h : x = y then .isTrue (by rw [h]) else .isFalse (by intro hc; cases hc; exact h rfl)
  | .ok _, .error _ => .isFalse (by intro hc; cases hc)
  | .error _, .ok _ => .isFalse (by intro hc; cases hc)

/-! ## Python string primitives -/

/-- ASCII whitespace as used by `str.strip` / the `\s` class on the inputs
at hand. -/
def isPySpace (c : Char) : Bool :=
  c = ' ' || c = '\t' || c = '\n' || c = '\r' || c = '\x0b' || c = '\x0c'

/-- Characters of `str.strip()`: drop whitespace at both ends. -/
def pyStripChars (cs : List Char) : List Char :=
  ((cs.dropWhile isPySpace).reverse.dropWhile isPySpace).reverse

/-- Python `str.strip()`. -/
def pyStrip (s : String) : String :=
  ⟨pyStripChars s.data⟩

/-- Auxiliary for whitespace splitting: current word accumulator is reversed. -/
def wordsAux : List Char → List Char → List (List Char)
  | [], [] => []
  | [], acc => [acc.reverse]
  | c :: cs, acc =>
    if isPySpace c then
      if acc.isEmpty then wordsAux cs [] else acc.reverse :: wordsAux cs []
    else wordsAux cs (c :: acc)

/-- Python `str.split()` with no argument: split on whitespace runs,
discarding empty fields. -/
def pySplitWs (s : String) : List String :=
  (wordsAux s.data []).map fun cs => ⟨cs⟩

/-- Auxiliary for splitting on a single delimiter character; the current
field accumulator is reversed. -/
def splitOnCharAux (d : Char) : List Char → List Char → List (List Char)
  | [], acc => [acc.reverse]
  | c :: cs, acc =>
    if c = d then acc.reverse :: splitOnCharAux d cs []
    else splitOnCharAux d cs (c :: acc)

/-- Python `str.split(d)` for a one-character separator (also the record
model of `csv.reader` on quoting-free input). -/
def pySplitChar (d : Char) (s : String) : List String :=
  (splitOnCharAux d s.data []).map fun cs => ⟨cs⟩

/-- Join character lists with a delimiter character in between. -/
def interChars (d : Char) : List (List Char) → List Char
  | [] => []
  | [cs] => cs
  | cs :: rest => cs ++ d :: interChars d rest

/-- What `csv.writer(..., lineterminator="\n").writerow` emits for a row of
quoting-free fields, without the terminating newline. -/
def csvSerializeRow (d : Char) (fields : List String) : String :=
  ⟨interChars d (fields.map String.data)⟩

/-- One record of `csv.reader`: a blank line yields the empty record, any
other (quoting-free) line is split on the delimiter. -/
def csvParse (d : Char) (s : String) : List String :=
  if s = "" then [] else pySplitChar d s

/-- Value of a run of decimal digits, `none` if empty or non-digit. -/
def digitsToNat : List Char → Option Nat
  | [] => none
  | [c] => if c.isDigit then some (c.toNat - '0'.toNat) else none
  | c :: cs =>
    if c.isDigit then
      match digitsToNat cs with
      | some n => some ((c.toNat - '0'.toNat) * 10 ^ cs.length + n)
      | none => none
    else none

/-- Python `int(s)`: optional surrounding whitespace, optional sign, a
nonempty run of digits. -/
def pyInt (s : String) : Option Int :=
  match pyStripChars s.data with
  | '-' :: ds => (digitsToNat ds).map fun n => -(n : Int)
  | '+' :: ds => (digitsToNat ds).map fun n => (n : Int)
  | ds => (digitsToNat ds).map fun n => (n : Int)

/-- The cut point of the Python slices `l[:p]` and `l[p:]` on a list of
length `n` (negative indices count from the end, clamped at the ends). -/
def cutIndex (n : Nat) (p : Int) : Nat :=
  if p < 0 then n - min n p.natAbs else min p.toNat n

/-- Python `l[:p]`. -/
def pySliceLe (l : List α) (p : Int) : List α :=
  l.take (cutIndex l.length p)

/-- Python `l[p:]`. -/
def pySliceGe (l : List α) (p : Int) : List α :=
  l.drop (cutIndex l.length p)

/-- Python `l[i]` for an `int` index: negative indices count from the end,
out-of-range indexing is an `IndexError` (`none`). -/
def pyGet (l : List α) (i : Int) : Option α :=
  if 0 ≤ i then l.get? i.toNat
  else if i.natAbs ≤ l.length then l.get? (l.length - i.natAbs)
  else none

/-- `[l[i] for i in idxs]`, failing (`none`) on the first bad index. -/
def pyGetAll (l : List α) : List Int → Option (List α)
  | [] => some []
  | i :: is =>
    match pyGet l i with
    | none => none
    | some x =>
      match pyGetAll l is with
      | none => none
      | some xs => some (x :: xs)

/-- Byte content of a stream given as a list of lines: each line is
terminated with a newline. -/
def fileContent (lines : List String) : String :=
  String.join (lines.map fun l => l ++ "\n")

/-! ## The regular expressions of `utils.get_metadata_if_arff`

The source compiles five patterns and uses them with `re.match` (anchored at
the start of the line, succeeding iff some decomposition of a prefix of the
string matches).  Each is translated to a decidable function below.
-/

/-- Case-insensitive literal keyword match at the start of a character list;
returns the remainder on success. -/
def matchKeywordCI : List Char → List Char → Option (List Char)
  | [], rest => some rest
  | _ :: _, [] => none
  | k :: ks, c :: cs => if c.toLower = k then matchKeywordCI ks cs else none

/-- `re.match(r'^%', line)`. -/
def commentMatch (s : String) : Bool :=
  match s.data with
  | '%' :: _ => true
  | _ => false

/-- `re.match(r'^\s+$', line)`: one or more whitespace characters spanning
the whole line. -/
def emptyMatch (s : String) : Bool :=
  !s.data.isEmpty && s.data.all isPySpace

/-- The suffixes reachable from a character list by consuming zero or more
leading whitespace characters — the candidate remainders after a greedy or
backtracked `\s*`. -/
def relTailCandidates : List Char → List (List Char)
  | [] => [[]]
  | c :: cs => if isPySpace c then (c :: cs) :: relTailCandidates cs else [c :: cs]

/-- Alternative `[^']\S*$` of the relation pattern. -/
def relAltPlain : List Char → Bool
  | [] => false
  | c :: cs => c ≠ '\'' && cs.all fun x => !isPySpace x

/-- Alternative `q[^{},%].*q$` of the relation pattern, for a quote
character `q` (only the first quoted character is constrained; `.` does not
match a newline). -/
def relAltQuoted (q : Char) : List Char → Bool
  | q' :: c :: rest =>
    q' = q && !(c = '{' || c = '}' || c = ',' || c = '%') &&
      !rest.isEmpty && rest.dropLast.all (fun x => x ≠ '\n') &&
      rest.getLast? = some q
  | _ => false

/-- The group of the relation pattern: one of the three alternatives. -/
def relAltMatch (t : List Char) : Bool :=
  relAltPlain t || relAltQuoted '\'' t || relAltQuoted '"' t

/-- `re.match(relation, line)` for
`^@[Rr][Ee][Ll][Aa][Tt][Ii][Oo][Nn]\s*(([^']\S*)|('[^{},%].*')|("[^{},%].*"))$`. -/
def relationMatch (s : String) : Bool :=
  match matchKeywordCI "@relation".data s.data with
  | some rest => (relTailCandidates rest).any relAltMatch
  | none => false

/-- `re.match(r'^@[Dd][Aa][Tt][Aa]', line)`: unanchored at the right, so any
line beginning with a case variant of `@data` matches. -/
def datametaMatch (s : String) : Bool :=
  (matchKeywordCI "@data".data s.data).isSome

/-- `re.match(r'^@[Aa][Tt][Tt][Rr][Ii][Bb][Uu][Tt][Ee]\s*(..*$)', line)`:
the keyword, optional whitespace, then at least one non-newline character
reaching the end of the line. -/
def attributeMatch (s : String) : Bool :=
  match matchKeywordCI "@attribute".data s.data with
  | some rest =>
    (relTailCandidates rest).any fun t => !t.isEmpty && t.all fun x => x ≠ '\n'
  | none => false

/-! ## `utils.get_metadata_if_arff` -/

/-- Result of `get_metadata_if_arff`: the returned quadruple, plus the lines
the stream cursor still has ahead of it when the function returns (after the
`@data` line for an ARFF, the whole stream after the `seek(0)` otherwise). -/
structure ScanResult where
  is_arff : Bool
  attr_names : List String
  attr_lines : List String
  all_metadata_lines : List String
  rest : List String
deriving DecidableEq

/-- The two ways the source scanner can fail to return normally:
`attrIndexError` is the `IndexError` of `line.split()[1]` on an `@attribute`
line with fewer than two tokens; `noDataLine` marks the inputs on which the
source's metadata loop never returns (at end of file `readline` yields `""`
forever, which matches neither `@data` nor anything else). -/
inductive ScanErr where
  | attrIndexError
  | noDataLine
deriving DecidableEq

/-- The comment-skipping loop: collects stripped comment/whitespace lines,
and returns them with the first other (stripped) line and the lines after
it.  At end of file `readline` yields `""`, which stops the loop. -/
def skipComments : List String → List String × String × List String
  | [] => ([], "", [])
  | l :: ls =>
    let s := pyStrip l
    if commentMatch s || emptyMatch s then
      let (ms, cur, rest) := skipComments ls
      (s :: ms, cur, rest)
    else ([], s, ls)

/-- The metadata loop of `get_metadata_if_arff`, structurally recursive on
the remaining lines.  Arguments: current (stripped) line, remaining lines,
then the `attr_names`, `attr_lines`, `all_metadata_lines` accumulators.
Returns the three lists and the lines remaining after the `@data` line. -/
def metaLoop : String → List String → List String → List String → List String →
    Except ScanErr (List String × List String × List String × List String)
  | line, rest, names, attrs, metas =>
    if datametaMatch line then .ok (names, attrs, metas, rest)
    else
      match rest with
      | [] => .error .noDataLine
      | l :: ls =>
        let s := pyStrip l
        if attributeMatch s then
          match (pySplitWs s).get? 1 with
          | some nm => metaLoop s ls (names ++ [nm]) (attrs ++ [s]) (metas ++ [s])
          | none => .error .attrIndexError
        else metaLoop s ls names attrs (metas ++ [s])

/-- `utils.get_metadata_if_arff`, with the stream given as its list of
lines.  For a non-ARFF the source seeks back to offset 0, so `rest` is the
whole stream; note that in that case `all_metadata_lines` still carries the
comment lines collected before the first substantive line, exactly as in
the source. -/
def get_metadata_if_arff (lines : List String) :
    Except ScanErr ScanResult :=
  let (skipped, line, rest) := skipComments lines
  if relationMatch line then
    match metaLoop line rest [] [] (skipped ++ [line]) with
    | .ok (names, attrs, metas, restAfter) => .ok ⟨true, names, attrs, metas, restAfter⟩
    | .error e => .error e
  else .ok ⟨false, [], [], skipped, lines⟩

/-- The metadata loop again, as a literal fuel-indexed transcription of the
source's `while not datameta.match(line)` loop: each iteration reads the
next line (`""` at end of file) and `none` means the loop has not returned
within `fuel` iterations. -/
def metaLoopFuel : Nat → String → List String → List String → List String → List String →
    Option (Except ScanErr (List String × List String × List String × List String))
  | 0, _, _, _, _, _ => none
  | fuel + 1, line, rest, names, attrs, metas =>
    if datametaMatch line then some (.ok (names, attrs, metas, rest))
    else
      let s := match rest with | [] => "" | l :: _ => pyStrip l
      let rest' := match rest with | [] => ([] : List String) | _ :: ls => ls
      if attributeMatch s then
        match (pySplitWs s).get? 1 with
        | some nm => metaLoopFuel fuel s rest' (names ++ [nm]) (attrs ++ [s]) (metas ++ [s])
        | none => some (.error .attrIndexError)
      else metaLoopFuel fuel s rest' names attrs (metas ++ [s])

/-- `get_metadata_if_arff` with the metadata loop bounded by `fuel`
iterations; `none` means the source function has not returned. -/
def get_metadata_if_arff_fuel (fuel : Nat) (lines : List String) :
    Option (Except ScanErr ScanResult) :=
  let (skipped, line, rest) := skipComments lines
  if relationMatch line then
    match metaLoopFuel fuel line rest [] [] (skipped ++ [line]) with
    | some (.ok (names, attrs, metas, restAfter)) =>
      some (.ok ⟨true, names, attrs, metas, restAfter⟩)
    | some (.error e) => some (.error e)
    | none => none
  else some (.ok ⟨false, [], [], skipped, lines⟩)

/-! ## `utils.create_metadata_rows` -/

/-- `utils.create_metadata_rows`: the emitted header lines, each terminated
with a newline. -/
def create_metadata_rows (rel_name : String) (attr_lines : List String) :
    List String :=
  (["@relation " ++ rel_name, ""] ++ attr_lines ++ ["", "@data"]).map fun l => l ++ "\n"

/-- The same header as a list of bare lines (without the newlines), i.e. the
stream a file whose header was written by `create_metadata_rows` starts
with. -/
def headerLines (rel_name : String) (attr_lines : List String) : List String :=
  ["@relation " ++ rel_name, ""] ++ attr_lines ++ ["", "@data"]

/-- A relation name accepted by the plain alternative of the relation
pattern: nonempty, not starting with a single quote, no whitespace. -/
def validRelName (rel : String) : Prop :=
  rel.data ≠ [] ∧ rel.data.head? ≠ some '\'' ∧ ∀ c ∈ rel.data, isPySpace c = false

instance : DecidablePred validRelName := fun rel => by
  unfold validRelName; infer_instance

/-- An attribute line in the canonical (re-emitted) form: stripped, matching
the attribute pattern with a second whitespace token, and not mistakable
for a `@data` or `@relation` line. -/
def canonicalAttrLine (a : String) : Prop :=
  pyStrip a = a ∧ attributeMatch a = true ∧ datametaMatch a = false ∧
    relationMatch a = false ∧ 2 ≤ (pySplitWs a).length

instance : DecidablePred canonicalAttrLine := fun a => by
  unfold canonicalAttrLine; infer_instance

/-- The attribute name the scanner extracts: `line.split()[1]`. -/
def attrName (a : String) : String :=
  (pySplitWs a).getD 1 ""

/-- Replacing the relation name: every line matching the relation pattern
(after stripping) is replaced by `@relation` followed by the new name, all
other lines are untouched.  This is the "modulo relation-name substitution"
of Select's idempotence property. -/
def renameRelation (lines : List String) (rel : String) : List String :=
  lines.map fun l => if relationMatch (pyStrip l) then "@relation " ++ rel else l

/-! ## `io.io_handler`

The context manager is modelled by its observable trace: whether it opened a
fresh handle (`hasattr(file_, 'read')` is false, i.e. the argument is a
path), and whether `handle.close()` ran.  The generator body is
`yield handle` followed by the conditional close, with no `try`/`finally`:
when the enclosed body raises, the exception is thrown into the generator at
the `yield` and propagates, so the statements after the `yield` do not run.
-/

/-- The argument of `io_handler`: a path (no `read` attribute) or an
already-open handle / buffer (has a `read` attribute). -/
inductive FileArg where
  | path (name : String)
  | handle (id : Nat)
deriving DecidableEq

/-- `hasattr(file_, 'read')` for the two argument shapes. -/
def hasReadAttr : FileArg → Bool
  | .path _ => false
  | .handle _ => true

/-- Observable effects of one `io_handler` use. -/
structure IoTrace where
  opened : Bool
  closed : Bool
deriving DecidableEq

/-- `io_handler file_` around a body that either completes or raises
(`bodyRaises`).  `opened` records whether `open(file_, mode)` ran; on normal
exit the source closes iff `handle != file_`, i.e. iff it opened the handle
itself; on a raising body nothing after the `yield` runs. -/
def io_handler (file_ : FileArg) (bodyRaises : Bool) : IoTrace :=
  let opened := !hasReadAttr file_
  if bodyRaises then { opened := opened, closed := false }
  else { opened := opened, closed := opened }

/-! ## `remove_known_extensions`

The source (three identical copies, in `arffmerge`, `arffselect` and
`arffsplit`) is `re.sub(".(arff|csv|txt)$", "", filename)`.  The dot is
unescaped, so the pattern matches any single character followed by `arff`,
`csv` or `txt` at the end of the string.  `re.sub` replaces the leftmost
match; since every match ends at the end of the string the only possible
match positions are `len-5` (for `arff`) and `len-4` (for `csv`/`txt`), and
the leftmost one is the `arff` one.  Hence: if the name ends in `arff` and
has at least 5 characters, the last 5 characters are removed; otherwise if
it ends in `csv` or `txt` and has at least 4 characters, the last 4 are
removed; otherwise it is unchanged. -/

/-- Whether `suf` is a suffix of `s`. -/
def strEndsWith (s suf : String) : Bool :=
  suf.data.isSuffixOf s.data

/-- `remove_known_extensions` of `arffmerge.py` / `arffsplit.py` (and
`remove_known_file_extensions` of `arffselect.py`). -/
def remove_known_extensions (filename : String) : String :=
  if strEndsWith filename "arff" && 5 ≤ filename.length then
    ⟨filename.data.take (filename.length - 5)⟩
  else if (strEndsWith filename "csv" || strEndsWith filename "txt") && 4 ≤ filename.length then
    ⟨filename.data.take (filename.length - 4)⟩
  else filename

/-- `arffselect.remove_known_file_extensions` is the same code. -/
def remove_known_file_extensions (filename : String) : String :=
  remove_known_extensions filename

/-! ## `arffselect.py` -/

/-- The two `ValueError`s of `arffselect.get_column_to_select`. -/
inductive ColErr where
  | notArffNames (spec : String)
  | nameNotFound (spec : String)
deriving DecidableEq

/-- `list.index` (first position of an element), `none` when absent. -/
def listIndex (x : String) : List String → Option Nat
  | [] => none
  | y :: ys => if y = x then some 0 else (listIndex x ys).map (· + 1)

/-- `arffselect.get_column_to_select`: an integer spec is returned directly;
otherwise the name is looked up in `attr_names` (requiring an ARFF). -/
def get_column_to_select (col_str : String) (is_arff : Bool)
    (attr_names : List String) : Except ColErr Int :=
  match pyInt col_str with
  | some n => .ok n
  | none =>
    if !is_arff then .error (.notArffNames col_str)
    else
      match listIndex col_str attr_names with
      | some i => .ok i
      | none => .error (.nameNotFound col_str)

/-- Resolution of the whole column list (the list comprehension in
`handle_metadata_and_get_columns`): the first failing spec aborts. -/
def resolveAll (col_strs : List String) (is_arff : Bool)
    (attr_names : List String) : Except ColErr (List Int) :=
  match col_strs with
  | [] => .ok []
  | c :: cs =>
    match get_column_to_select c is_arff attr_names with
    | .error e => .error e
    | .ok i =>
      match resolveAll cs is_arff attr_names with
      | .error e => .error e
      | .ok is => .ok (i :: is)

/-- The ways `arffselect.select` can abort. -/
inductive SelectErr where
  | scanFailure (e : ScanErr)
  | colFailure (e : ColErr)
  | headerIndexError
  | rowIndexError
deriving DecidableEq

/-- The row loop of `arffselect.select`: project each parsed row through the
resolved columns and serialize it.  An out-of-range index is an
`IndexError`; rows written before it stay written. -/
def selectRows (outDelim : Char) (cols : List Int) :
    List (List String) → List String × Bool
  | [] => ([], false)
  | row :: rest =>
    match pyGetAll row cols with
    | none => ([], true)
    | some fields =>
      let (outs, err) := selectRows outDelim cols rest
      ((csvSerializeRow outDelim fields ++ "\n") :: outs, err)

/-- `arffselect.select` (with `handle_metadata_and_get_columns` inlined in
source order): returns the lines written to the output stream, in order,
paired with the final status.  Column resolution happens before the header
is written, and the header before any data row.  `outName` is
`basename(out_.name)` when the output object has a `name` attribute. -/
def select (inLines : List String) (col_strs : List String)
    (inDelim outDelim : Char) (outName : Option String) :
    List String × Except SelectErr Unit :=
  match get_metadata_if_arff inLines with
  | .error e => ([], .error (.scanFailure e))
  | .ok res =>
    match resolveAll col_strs res.is_arff res.attr_names with
    | .error e => ([], .error (.colFailure e))
    | .ok cols =>
      let hdr :=
        if res.is_arff then
          match pyGetAll res.attr_lines cols with
          | none => none
          | some sel =>
            some (create_metadata_rows
              ((outName.map remove_known_file_extensions).getD "output") sel)
        else some []
      match hdr with
      | none => ([], .error .headerIndexError)
      | some hdrLines =>
        let rows := res.rest.map (csvParse inDelim)
        let (outRows, err) := selectRows outDelim cols rows
        (hdrLines ++ outRows, if err then .error .rowIndexError else .ok ())

/-! ## `arffmerge.py` -/

/-- The `ValueError`s of `arffmerge.parse_additional_cols_args`: the
non-ARFF-name error has the custom message; a name absent from
`attr_names` raises the bare `list.index` ValueError (the `pos == -1`
check after it is dead code, since `list.index` never returns `-1`). -/
inductive MergeColErr where
  | notArffNames (spec : String)
  | notInList (spec : String)
deriving DecidableEq

/-- The inner `get_column_pos` of `arffmerge.parse_additional_cols_args`. -/
def get_column_pos (pos_str : String) (is_arff : Bool)
    (attr_names : List String) : Except MergeColErr Int :=
  match pyInt pos_str with
  | some n => .ok n
  | none =>
    if !is_arff then .error (.notArffNames pos_str)
    else
      match listIndex pos_str attr_names with
      | some i => .ok i
      | none => .error (.notInList pos_str)

/-- `arffmerge.parse_additional_cols_args`: split the spec on `:`; the
second component is `None` when absent or empty. -/
def parse_additional_cols_args (pos_string : String) (is_arff : Bool)
    (attr_names : List String) : Except MergeColErr (Int × Option Int) :=
  let pos_pair := pySplitChar ':' pos_string
  match get_column_pos (pos_pair.headD "") is_arff attr_names with
  | .error e => .error e
  | .ok first =>
    if pos_pair.length = 1 || pos_pair.getD 1 "" = "" then .ok (first, none)
    else
      match get_column_pos (pos_pair.getD 1 "") is_arff attr_names with
      | .error e => .error e
      | .ok second => .ok (first, some second)

/-- Failures inside `read_add_write` after the header has been written:
`getDataWidthIndexError` is the `IndexError` of
`list(dict.values())[0]` in `get_data_width` on an empty mapping;
`rowKeyIndexError` is `line[key_col]` on a too-short row. -/
inductive MergeErr where
  | getDataWidthIndexError
  | rowKeyIndexError
deriving DecidableEq

/-- The warning printed for a main-file key absent from the additional
mapping. -/
def missingKeyWarning (key : String) : String :=
  "Warning: key " ++ key ++ " does not have additional data row"

/-- `arffmerge.handle_arff_headers`: combine the attribute lines (splicing
the additional ones at `output_pos` when both sides have some) and emit the
header; returns the written lines and whether the hand-edit warning was
printed.  The header is written unconditionally, exactly as in the
source. -/
def handle_arff_headers (res : ScanResult) (add_attr_lines : List String)
    (output_pos : Int) (outName : String) : List String × Bool :=
  let bothArff := !res.attr_lines.isEmpty && !add_attr_lines.isEmpty
  let attr_lines :=
    if bothArff then
      pySliceLe res.attr_lines output_pos ++ add_attr_lines ++
        pySliceGe res.attr_lines output_pos
    else res.attr_lines
  (create_metadata_rows (remove_known_extensions outName) attr_lines, !bothArff)

/-- The row loop of `arffmerge.read_add_write`: for each row look the key
up in the additional mapping (`List.lookup` models the dict the
comprehension in `get_additional_csv` built), splice in the match or the
placeholder, and record a warning per miss.  Returns the rows passed to
`writerow` and the warnings, in order. -/
def merge_rows (add_data : List (String × List String)) (missing : List String)
    (key_col : Nat) (output_pos : Int) :
    List (List String) → Except MergeErr (List (List String) × List String)
  | [] => .ok ([], [])
  | row :: rest =>
    match row.get? key_col with
    | none => .error .rowKeyIndexError
    | some inv_id =>
      let (line_to_add, warns) :=
        match add_data.lookup inv_id with
        | some seg => (seg, ([] : List String))
        | none => (missing, [missingKeyWarning inv_id])
      match merge_rows add_data missing key_col output_pos rest with
      | .error e => .error e
      | .ok (outs, ws) =>
        .ok ((pySliceLe row output_pos ++ line_to_add ++ pySliceGe row output_pos) :: outs,
          warns ++ ws)

/-- Everything `read_add_write` does after scanning the main file: the
header lines written by `handle_arff_headers`, the hand-edit warning flag,
and then the result of the data pass — which is an error straight from
`get_data_width` when the additional mapping is empty, reached after the
header write and before any main data row. -/
structure MergeRun where
  header : List String
  metaWarning : Bool
  result : Except MergeErr (List (List String) × List String)
deriving DecidableEq

/-- `arffmerge.read_add_write`, with the main stream given as lines and the
already-built additional mapping as an association list. -/
def read_add_write (mainLines : List String) (outName : String)
    (add_attr_lines : List String) (add_data : List (String × List String))
    (key_col : Nat) (output_pos : Int) (delim : Char) :
    Except ScanErr MergeRun :=
  match get_metadata_if_arff mainLines with
  | .error e => .error e
  | .ok res =>
    let hdr := handle_arff_headers res add_attr_lines output_pos outName
    match add_data with
    | [] => .ok ⟨hdr.1, hdr.2, .error .getDataWidthIndexError⟩
    | (_, v0) :: _ =>
      let missing := List.replicate v0.length (if res.is_arff then "?" else "")
      let rows := res.rest.map (csvParse delim)
      .ok ⟨hdr.1, hdr.2, merge_rows add_data missing key_col output_pos rows⟩

/-! ## `arffsplit.py` -/

/-- One `writerow` call of `split_file`: to output stream `i` or to the
remainder stream. -/
inductive SplitEvent where
  | toOutput (i : Nat) (row : List String)
  | toRemainder (row : List String)
deriving DecidableEq

/-- The `for index, key_set in enumerate(key_sets)` loop body for one row:
a write event per key set containing the key, starting at index `i`. -/
def writeHits (row : List String) (key : String) :
    Nat → List (List String) → List SplitEvent
  | _, [] => []
  | i, ks :: rest =>
    (if ks.contains key then [SplitEvent.toOutput i row] else []) ++
      writeHits row key (i + 1) rest

/-- `arffsplit.split_file`: the sequence of `writerow` calls, or `none` on
the `IndexError` of `line[key_column]`. -/
def split_file (key_column : Nat) (key_sets : List (List String)) :
    List (List String) → Option (List SplitEvent)
  | [] => some []
  | row :: rest =>
    match row.get? key_column with
    | none => none
    | some key =>
      let hits := writeHits row key 0 key_sets
      let events :=
        hits ++ (if key_sets.any fun ks => ks.contains key then [] else [.toRemainder row])
      match split_file key_column key_sets rest with
      | none => none
      | some evs => some (events ++ evs)

/-- Rows written to output stream `i`, in order. -/
def streamOf (i : Nat) (events : List SplitEvent) : List (List String) :=
  events.filterMap fun e =>
    match e with
    | .toOutput j row => if j = i then some row else none
    | .toRemainder _ => none

/-- Rows written to the remainder stream, in order. -/
def remainderOf (events : List SplitEvent) : List (List String) :=
  events.filterMap fun e =>
    match e with
    | .toOutput _ _ => none
    | .toRemainder row => some row

/-- `arffsplit.copy_metadata_if_arff`: scan the input; if it is an ARFF
write `create_metadata_rows` (with the relation name derived from each
output file's base name) to every output stream.  Returns the ARFF flag,
the lines written to each stream of `outNames`, and the remaining input
lines. -/
def copy_metadata_if_arff (inLines : List String) (outNames : List String) :
    Except ScanErr (Bool × List (List String) × List String) :=
  match get_metadata_if_arff inLines with
  | .error e => .error e
  | .ok res =>
    .ok (res.is_arff,
      if res.is_arff then
        outNames.map fun nm => create_metadata_rows (remove_known_extensions nm) res.attr_lines
      else outNames.map fun _ => [],
      res.rest)

/-- Failures of the split pipeline. -/
inductive SplitErr where
  | scanFailure (e : ScanErr)
  | keyIndexError
deriving DecidableEq

/-- Final contents (lines written, in order) of each output stream and of
the remainder stream. -/
structure SplitRun where
  outContents : List (List String)
  rmdrContent : List String
deriving DecidableEq

/-- `arffsplit.set_up_and_do_split`: headers via `copy_metadata_if_arff`
(note the source writes to the remainder stream as well), then the data
pass via `split_file`; each written row is serialized with the delimiter
and a newline. -/
def set_up_and_do_split (inLines : List String) (outNames : List String)
    (rmdrName : String) (delim : Char) (key_column : Nat)
    (key_sets : List (List String)) : Except SplitErr SplitRun :=
  match copy_metadata_if_arff inLines (outNames ++ [rmdrName]) with
  | .error e => .error (.scanFailure e)
  | .ok (_, hdrs, restLines) =>
    let rows := restLines.map (csvParse delim)
    match split_file key_column key_sets rows with
    | none => .error .keyIndexError
    | some evs =>
      .ok ⟨(List.range outNames.length).map fun i =>
             hdrs.getD i [] ++ (streamOf i evs).map fun r => csvSerializeRow delim r ++ "\n",
           hdrs.getD outNames.length [] ++
             (remainderOf evs).map fun r => csvSerializeRow delim r ++ "\n"⟩

/-! ## Claim C8 -/

/-- Claim C8, evaluated on the code: the extension-stripping regex
`".(arff|csv|txt)$"` has an unescaped dot, so `"dataarff"` — which does not
end in any of the dot-extensions `.arff`, `.csv`, `.txt` — is nevertheless
changed, to `"dat"` (the dot matches the preceding `a`).  The claim says
such a name is left unchanged. -/
theorem C8_unescaped_dot_eval :
    remove_known_extensions "dataarff" = "dat" ∧
    remove_known_file_extensions "dataarff" = "dat" ∧
    strEndsWith "dataarff" ".arff" = false ∧
    strEndsWith "dataarff" ".csv" = false ∧
    strEndsWith "dataarff" ".txt" = false := by
  refine ⟨?_, ?_, ?_, ?_, ?_⟩ <;> decide

/-! ## Claim C4 -/

/-- Claim C4, counterexample: `io_handler` given a path (so it opens the
handle itself) around a body that raises does NOT close the handle — the
generator has no `try`/`finally`, so the exception thrown at the `yield`
skips the close.  The claim asserts the owned handle is closed on every
exit path including errors. -/
theorem C4_counterexample :
    (io_handler (.path "input.csv") true).opened = true ∧
    (io_handler (.path "input.csv") true).closed = false := by
  decide

/-- Claim C4 as amended: `io_handler` closes the handle exactly when it
opened it itself (the argument was a path) AND the enclosed body completed
normally; a handle supplied by the caller is never closed, and on a raising
body nothing is closed. -/
theorem C4_amended_close_behavior (file_ : FileArg) (bodyRaises : Bool) :
    (io_handler file_ bodyRaises).closed = (!bodyRaises && !hasReadAttr file_) ∧
    (io_handler file_ bodyRaises).opened = !hasReadAttr file_ := by
  cases file_ <;> cases bodyRaises <;> exact ⟨rfl, rfl⟩

/-! ## Claim C7 -/

/-- Claim C7 (confirmed): column resolution in `arffselect` and `arffmerge`.
An integer spec is returned directly regardless of ARFF-ness; a non-numeric
spec against a non-ARFF fails with the "can't use names" error; a
non-numeric spec naming an absent attribute fails with the name-not-found
error (`arffselect`'s custom message, `arffmerge`'s raw `list.index`
ValueError); and in the `select` pipeline a resolution failure happens
before anything — header or data row — is written to the output. -/
theorem C7_column_resolution :
    (∀ (s : String) (n : Int) (b : Bool) (names : List String), pyInt s = some n →
        get_column_to_select s b names = .ok n ∧ get_column_pos s b names = .ok n) ∧
    (∀ (s : String) (names : List String), pyInt s = none →
        get_column_to_select s false names = .error (.notArffNames s) ∧
        get_column_pos s false names = .error (.notArffNames s)) ∧
    (∀ (s : String) (names : List String), pyInt s = none → listIndex s names = none →
        get_column_to_select s true names = .error (.nameNotFound s) ∧
        get_column_pos s true names = .error (.notInList s)) ∧
    (∀ (inLines col_strs : List String) (dIn dOut : Char) (nm : Option String) (e : ColErr),
        (select inLines col_strs dIn dOut nm).2 = .error (.colFailure e) →
        (select inLines col_strs dIn dOut nm).1 = []) := by
  refine ⟨?_, ?_, ?_, ?_⟩
  · intro s n b names h
    constructor <;> simp [get_column_to_select, get_column_pos, h]
  · intro s names h
    constructor <;> simp [get_column_to_select, get_column_pos, h]
  · intro s names h h2
    constructor <;> simp [get_column_to_select, get_column_pos, h, h2]
  · intro inLines col_strs dIn dOut nm e h
    unfold select at h ⊢
    cases hscan : get_metadata_if_arff inLines with
    | error e' => simp [hscan] at h
    | ok res =>
      cases hres : resolveAll col_strs res.is_arff res.attr_names with
      | error e' => simp [hscan, hres]
      | ok cols =>
        simp only [hscan, hres] at h
        by_cases harff : res.is_arff = true
        · simp only [harff, if_true] at h
          cases hsel : pyGetAll res.attr_lines cols with
          | none => simp [hsel] at h
          | some sel =>
            simp only [hsel] at h
            cases hb : (selectRows dOut cols (List.map (csvParse dIn) res.rest)).2 <;>
              simp [hb] at h
        · simp only [Bool.not_eq_true] at harff
          simp only [harff] at h
          cases hb : (selectRows dOut cols (List.map (csvParse dIn) res.rest)).2 <;>
            simp [hb] at h

/-- Claim C7, witness: concrete applications of each branch of
`C7_column_resolution`. -/
theorem C7_witness :
    (get_column_to_select "2" false ["a"] = .ok 2 ∧ get_column_pos "2" false ["a"] = .ok 2) ∧
    (get_column_to_select "col2" false [] = .error (.notArffNames "col2") ∧
      get_column_pos "col2" false [] = .error (.notArffNames "col2")) ∧
    (get_column_to_select "colX" true ["col0"] = .error (.nameNotFound "colX") ∧
      get_column_pos "colX" true ["col0"] = .error (.notInList "colX")) ∧
    (select ["1,2"] ["name"] ',' ',' none).1 = [] :=
  ⟨C7_column_resolution.1 "2" 2 false ["a"] (by decide),
   C7_column_resolution.2.1 "col2" [] (by decide),
   C7_column_resolution.2.2.1 "colX" ["col0"] (by decide) (by decide),
   C7_column_resolution.2.2.2 ["1,2"] ["name"] ',' ',' none (.notArffNames "name") (by decide)⟩

/-! ## Claim C10 -/

/-- Claim C10 (confirmed): with an empty additional mapping,
`read_add_write` writes the output header (via `handle_arff_headers`) and
then fails with the `IndexError` of `get_data_width` — before looking at
any primary data row (the result does not depend on the data rows at
all). -/
theorem C10_empty_additional_mapping (mainLines : List String) (outName : String)
    (add_attr_lines : List String) (key_col : Nat) (output_pos : Int) (delim : Char)
    (res : ScanResult) (h : get_metadata_if_arff mainLines = .ok res) :
    read_add_write mainLines outName add_attr_lines [] key_col output_pos delim =
      .ok ⟨(handle_arff_headers res add_attr_lines output_pos outName).1,
           (handle_arff_headers res add_attr_lines output_pos outName).2,
           .error .getDataWidthIndexError⟩ := by
  simp [read_add_write, h]

/-- Claim C10, witness: a concrete ARFF main file merged against an empty
mapping: the canonical header for the output name is produced, then the
`get_data_width` IndexError, with the data row `1,10` untouched. -/
theorem C10_witness :
    read_add_write ["@relation main", "", "@attribute key_col numeric", "", "@data", "1,10"]
        "out.csv" [] [] 0 (-1) ',' =
      .ok ⟨["@relation out\n", "\n", "@attribute key_col numeric\n", "\n", "@data\n"],
           true, .error .getDataWidthIndexError⟩ := by
  rw [C10_empty_additional_mapping _ "out.csv" [] 0 (-1) ','
    ⟨true, ["key_col"], ["@attribute key_col numeric"],
      ["@relation main", "", "@attribute key_col numeric", "", "@data"], ["1,10"]⟩
    (by decide)]
  decide

/-! ## Claim C5 -/

/-- At end of file the source's metadata loop keeps reading `""`, which
never matches `@data`: the fuel-indexed loop never returns, whatever the
fuel. -/
lemma metaLoopFuel_eof : ∀ (fuel : Nat) (line : String)
    (names attrs metas : List String), datametaMatch line = false →
    metaLoopFuel fuel line [] names attrs metas = none := by
  intro fuel
  induction fuel with
  | zero => intros; rfl
  | succ n ih =>
    intro line names attrs metas h
    simp only [metaLoopFuel, h, Bool.false_eq_true, if_false]
    have ha : attributeMatch "" = false := by decide
    simp only [ha, Bool.false_eq_true, if_false]
    exact ih "" names attrs (metas ++ [""]) (by decide)

/-- Claim C5, refuted on the code: on the stream consisting of the single
line `@relation foo` — whose first substantive line matches the relation
pattern but which contains no `@data` line — `get_metadata_if_arff` never
returns: the literal transcription of its `while` loop yields no result for
any iteration bound, and the structural model marks the run as having no
`@data` line.  The claim asserts the scanner terminates and returns on
every finite input. -/
theorem C5_scanner_diverges_without_data :
    (∀ fuel : Nat, get_metadata_if_arff_fuel fuel ["@relation foo"] = none) ∧
    get_metadata_if_arff ["@relation foo"] = .error .noDataLine := by
  constructor
  · intro fuel
    have h := metaLoopFuel_eof fuel "@relation foo" [] [] ["@relation foo"] (by decide)
    simp only [get_metadata_if_arff_fuel]
    have hskip : skipComments ["@relation foo"] = ([], "@relation foo", []) := by decide
    rw [hskip]
    have hrel : relationMatch "@relation foo" = true := by decide
    simp only [hrel, if_true, List.nil_append, h]
  · decide

/-! ## Split: characterization of the write events -/

lemma streamOf_append (i : Nat) (a b : List SplitEvent) :
    streamOf i (a ++ b) = streamOf i a ++ streamOf i b :=
  List.filterMap_append a b _

lemma remainderOf_append (a b : List SplitEvent) :
    remainderOf (a ++ b) = remainderOf a ++ remainderOf b :=
  List.filterMap_append a b _

lemma streamOf_writeHits_lt (row : List String) (key : String) :
    ∀ (sets : List (List String)) (k i : Nat), i < k →
    streamOf i (writeHits row key k sets) = [] := by
  intro sets
  induction sets with
  | nil => intros; rfl
  | cons ks rest ih =>
    intro k i hik
    simp only [writeHits, streamOf_append]
    rw [ih (k + 1) i (Nat.lt_succ_of_lt hik)]
    by_cases hc : key ∈ ks
    · simp [streamOf, hc, Nat.ne_of_gt hik]
    · simp [streamOf, hc]

lemma streamOf_writeHits (row : List String) (key : String) :
    ∀ (sets : List (List String)) (k d : Nat),
    streamOf (k + d) (writeHits row key k sets) =
      if (sets.getD d []).contains key then [row] else [] := by
  intro sets
  induction sets with
  | nil => intro k d; simp [writeHits, streamOf, List.getD]
  | cons ks rest ih =>
    intro k d
    cases d with
    | zero =>
      simp only [Nat.add_zero, writeHits, streamOf_append, List.getD_cons_zero]
      rw [streamOf_writeHits_lt row key rest (k + 1) k (Nat.lt_succ_self k)]
      by_cases hc : key ∈ ks <;> simp [streamOf, hc]
    | succ d' =>
      simp only [writeHits, streamOf_append, List.getD_cons_succ]
      have h1 : streamOf (k + (d' + 1)) (if ks.contains key then [SplitEvent.toOutput k row] else []) = [] := by
        by_cases hc : key ∈ ks <;> simp [streamOf, hc] <;> omega
      have h2 : k + (d' + 1) = (k + 1) + d' := by omega
      rw [h1, h2, ih (k + 1) d']
      simp

lemma remainderOf_writeHits (row : List String) (key : String) :
    ∀ (sets : List (List String)) (k : Nat),
    remainderOf (writeHits row key k sets) = [] := by
  intro sets
  induction sets with
  | nil => intros; rfl
  | cons ks rest ih =>
    intro k
    simp only [writeHits, remainderOf_append]
    rw [ih (k + 1)]
    by_cases hc : key ∈ ks <;> simp [remainderOf, hc]

/-- Full characterization of `split_file`'s write events: with every row
long enough for the key column, the run succeeds, the rows written to
output stream `i` are exactly the source rows (in source order) whose key
lies in key set `i`, and the remainder stream receives exactly the rows
whose key lies in no set. -/
lemma split_file_events (key_column : Nat) (key_sets : List (List String)) :
    ∀ rows : List (List String), (∀ r ∈ rows, key_column < r.length) →
    ∃ evs, split_file key_column key_sets rows = some evs ∧
      (∀ i, streamOf i evs =
        rows.filter fun r => (key_sets.getD i []).contains (r.getD key_column "")) ∧
      remainderOf evs =
        rows.filter fun r => key_sets.all fun ks => !ks.contains (r.getD key_column "") := by
  intro rows
  induction rows with
  | nil => exact fun _ => ⟨[], rfl, fun i => rfl, rfl⟩
  | cons row rest ih =>
    intro h
    have hk : key_column < row.length := h row (List.mem_cons_self row rest)
    obtain ⟨evs, hevs, hstr, hrem⟩ := ih fun r hr => h r (List.mem_cons_of_mem row hr)
    have hget : row.get? key_column = some (row.getD key_column "") := by
      rw [List.getD_eq_getD_get?]
      cases hx : row.get? key_column with
      | none =>
        rw [List.get?_eq_none] at hx
        omega
      | some v => rfl
    refine ⟨writeHits row (row.getD key_column "") 0 key_sets ++
      (if key_sets.any fun ks => ks.contains (row.getD key_column "") then []
        else [SplitEvent.toRemainder row]) ++ evs,
      ?_, ?_, ?_⟩
    · simp only [split_file, hget, hevs]
    · intro i
      simp only [streamOf_append]
      have h1 := streamOf_writeHits row (row.getD key_column "") key_sets 0 i
      rw [Nat.zero_add] at h1
      have h2 : streamOf i (if key_sets.any fun ks => ks.contains (row.getD key_column "") then []
          else [SplitEvent.toRemainder row]) = [] := by
        cases hc : key_sets.any fun ks => ks.contains (row.getD key_column "") <;>
          simp [streamOf, hc]
      rw [h1, h2, hstr i, List.filter_cons]
      cases hc : (key_sets.getD i []).contains (row.getD key_column "") <;> simp
    · simp only [remainderOf_append]
      rw [remainderOf_writeHits row (row.getD key_column "") key_sets 0, hrem, List.filter_cons]
      have hall : (key_sets.all fun ks => !ks.contains (row.getD key_column "")) =
          !(key_sets.any fun ks => ks.contains (row.getD key_column "")) := by
        rw [List.all_eq_not_any_not]
        simp
      rw [hall]
      cases hc : key_sets.any fun ks => ks.contains (row.getD key_column "") <;>
        simp [remainderOf]

/-! ## Claim C2 -/

/-- Claim C2 (confirmed): in `split_file`, provided every row is long
enough for the key column, each output stream `i` receives exactly the rows
whose key-column value belongs to key set `i` (a key in several sets is
written to each of those streams), the remainder stream receives exactly
the rows whose key belongs to no set, and every stream preserves source
order (each stream is a filter of the source rows). -/
theorem C2_split_membership (key_column : Nat) (key_sets : List (List String))
    (rows : List (List String)) (h : ∀ r ∈ rows, key_column < r.length) :
    ∃ evs, split_file key_column key_sets rows = some evs ∧
      (∀ i, streamOf i evs =
        rows.filter fun r => (key_sets.getD i []).contains (r.getD key_column "")) ∧
      remainderOf evs =
        rows.filter fun r => key_sets.all fun ks => !ks.contains (r.getD key_column "") :=
  split_file_events key_column key_sets rows h

/-- Claim C2, witness: the spec's concrete scenario — five rows keyed
`1..5`, set A `{1,2,3}`, set B `{3,4}`: stream 0 gets rows 1,2,3, stream 1
gets rows 3,4, the remainder gets row 5, each in source order. -/
theorem C2_witness :
    ∃ evs, split_file 0 [["1", "2", "3"], ["3", "4"]]
        [["1", "a"], ["2", "b"], ["3", "c"], ["4", "d"], ["5", "e"]] = some evs ∧
      (∀ i, streamOf i evs =
        [["1", "a"], ["2", "b"], ["3", "c"], ["4", "d"], ["5", "e"]].filter fun r =>
          ([["1", "2", "3"], ["3", "4"]].getD i []).contains (r.getD 0 "")) ∧
      remainderOf evs =
        [["1", "a"], ["2", "b"], ["3", "c"], ["4", "d"], ["5", "e"]].filter fun r =>
          [["1", "2", "3"], ["3", "4"]].all fun ks => !ks.contains (r.getD 0 "") :=
  C2_split_membership 0 [["1", "2", "3"], ["3", "4"]]
    [["1", "a"], ["2", "b"], ["3", "c"], ["4", "d"], ["5", "e"]] (by decide)

/-! ## Merge: characterization of the row loop -/

lemma length_pySlice (l : List α) (p : Int) :
    (pySliceLe l p).length + (pySliceGe l p).length = l.length := by
  simp only [pySliceLe, pySliceGe, List.length_take, List.length_drop]
  omega

lemma lookup_mem_snd {k : String} {v : List String} :
    ∀ {l : List (String × List String)}, l.lookup k = some v → v ∈ l.map Prod.snd := by
  intro l
  induction l with
  | nil => intro h; simp [List.lookup] at h
  | cons kv t ih =>
    obtain ⟨a, b⟩ := kv
    intro h
    cases hbeq : k == a with
    | true => simp only [List.lookup, hbeq] at h; cases h; simp
    | false =>
      simp only [List.lookup, hbeq] at h
      simpa using Or.inr (ih h)

/-- Full characterization of `merge_rows`: with every row long enough for
the key column, it succeeds; every output row is the input row with the
looked-up segment (or the placeholder on a miss) spliced in at the
insertion position; and the warnings are exactly the main-file keys missing
from the mapping, in source order. -/
lemma merge_rows_spec (add_data : List (String × List String)) (missing : List String)
    (key_col : Nat) (output_pos : Int) :
    ∀ rows : List (List String), (∀ r ∈ rows, key_col < r.length) →
    ∃ outs ws, merge_rows add_data missing key_col output_pos rows = .ok (outs, ws) ∧
      outs.length = rows.length ∧
      (∀ i, i < rows.length →
        outs.getD i [] =
          pySliceLe (rows.getD i []) output_pos ++
            (add_data.lookup ((rows.getD i []).getD key_col "")).getD missing ++
            pySliceGe (rows.getD i []) output_pos) ∧
      ws = (rows.filter fun r => (add_data.lookup (r.getD key_col "")).isNone).map
          fun r => missingKeyWarning (r.getD key_col "") := by
  intro rows
  induction rows with
  | nil =>
    exact fun _ => ⟨[], [], rfl, rfl, fun i hi => absurd hi (by simp), rfl⟩
  | cons row rest ih =>
    intro h
    have hk : key_col < row.length := h row (List.mem_cons_self row rest)
    obtain ⟨outs, ws, heq, hlen, hidx, hws⟩ := ih fun r hr => h r (List.mem_cons_of_mem row hr)
    have hget : row.get? key_col = some (row.getD key_col "") := by
      rw [List.getD_eq_getD_get?]
      cases hx : row.get? key_col with
      | none => rw [List.get?_eq_none] at hx; omega
      | some v => rfl
    refine ⟨(pySliceLe row output_pos ++
        (add_data.lookup (row.getD key_col "")).getD missing ++
        pySliceGe row output_pos) :: outs,
      (if (add_data.lookup (row.getD key_col "")).isNone then
        [missingKeyWarning (row.getD key_col "")] else []) ++ ws, ?_, ?_, ?_, ?_⟩
    · simp only [merge_rows, hget, heq]
      cases hlook : add_data.lookup (row.getD key_col "") <;> simp [hlook]
    · simp [hlen]
    · intro i hi
      cases i with
      | zero => simp
      | succ j =>
        simp only [List.getD_cons_succ]
        exact hidx j (by simpa using hi)
    · rw [hws, List.filter_cons]
      cases hlook : add_data.lookup (row.getD key_col "") <;> simp [hlook]

/-! ## Claim C3 -/

/-- Claim C3 (confirmed): in `read_add_write`, given a successful scan of
the main file, a nonempty additional mapping of uniform segment width, and
rows long enough for the key column: the run never aborts; every output row
has width primary-row-width plus import width, hit or miss; a row whose key
misses the mapping gets the same-width placeholder (`?` per column for an
ARFF main file, the empty string otherwise) spliced at the insertion
position; and the warnings are exactly the main-file keys missing from the
mapping — a mapping key unused by the main file produces none. -/
theorem C3_merge_missing_keys (mainLines : List String) (outName : String)
    (add_attr_lines : List String) (k0 : String) (v0 : List String)
    (addRest : List (String × List String)) (key_col : Nat) (output_pos : Int)
    (delim : Char) (res : ScanResult)
    (hscan : get_metadata_if_arff mainLines = .ok res)
    (hw : ∀ kv ∈ (k0, v0) :: addRest, (Prod.snd kv).length = v0.length)
    (hkeys : ∀ r ∈ res.rest.map (csvParse delim), key_col < r.length) :
    ∃ outs ws,
      read_add_write mainLines outName add_attr_lines ((k0, v0) :: addRest)
          key_col output_pos delim =
        .ok ⟨(handle_arff_headers res add_attr_lines output_pos outName).1,
             (handle_arff_headers res add_attr_lines output_pos outName).2,
             .ok (outs, ws)⟩ ∧
      outs.length = (res.rest.map (csvParse delim)).length ∧
      (∀ i, i < (res.rest.map (csvParse delim)).length →
        (outs.getD i []).length =
          ((res.rest.map (csvParse delim)).getD i []).length + v0.length) ∧
      (∀ i, i < (res.rest.map (csvParse delim)).length →
        (((k0, v0) :: addRest).lookup
            (((res.rest.map (csvParse delim)).getD i []).getD key_col "")).isNone →
        outs.getD i [] =
          pySliceLe ((res.rest.map (csvParse delim)).getD i []) output_pos ++
            List.replicate v0.length (if res.is_arff then "?" else "") ++
            pySliceGe ((res.rest.map (csvParse delim)).getD i []) output_pos) ∧
      ws = ((res.rest.map (csvParse delim)).filter fun r =>
              (((k0, v0) :: addRest).lookup (r.getD key_col "")).isNone).map
            fun r => missingKeyWarning (r.getD key_col "") := by
  obtain ⟨outs, ws, heq, hlen, hidx, hws⟩ :=
    merge_rows_spec ((k0, v0) :: addRest)
      (List.replicate v0.length (if res.is_arff then "?" else ""))
      key_col output_pos (res.rest.map (csvParse delim)) hkeys
  have hw' : ∀ v ∈ ((k0, v0) :: addRest).map Prod.snd, v.length = v0.length := by
    intro v hv
    obtain ⟨kv, hkv, rfl⟩ := List.mem_map.1 hv
    exact hw kv hkv
  refine ⟨outs, ws, ?_, hlen, ?_, ?_, hws⟩
  · simp only [read_add_write, hscan, heq]
  · intro i hi
    rw [hidx i hi]
    have hseg : ((((k0, v0) :: addRest).lookup
        (((res.rest.map (csvParse delim)).getD i []).getD key_col "")).getD
        (List.replicate v0.length (if res.is_arff then "?" else ""))).length = v0.length := by
      cases hlook : ((k0, v0) :: addRest).lookup
          (((res.rest.map (csvParse delim)).getD i []).getD key_col "") with
      | none => simp
      | some seg => simpa using hw' seg (lookup_mem_snd hlook)
    have hsl := length_pySlice ((res.rest.map (csvParse delim)).getD i []) output_pos
    simp only [List.length_append, hseg]
    omega
  · intro i hi hmiss
    rw [hidx i hi]
    rw [Option.isNone_iff_eq_none] at hmiss
    rw [hmiss]
    rfl

/-- Claim C3, witness: a concrete ARFF main file with keys `1,2` merged
against a mapping holding keys `1,3`: key `2` gets the placeholder and the
single warning; key `3` in the mapping is unused and produces no
warning. -/
theorem C3_witness :
    ∃ outs ws,
      read_add_write ["@relation main", "", "@attribute key_col numeric",
          "@attribute target numeric", "", "@data", "1,10", "2,20"]
        "output.arff" ["@attribute add_col numeric"] [("1", ["11"]), ("3", ["13"])]
        0 (-1) ',' =
        .ok ⟨(handle_arff_headers
            ⟨true, ["key_col", "target"],
              ["@attribute key_col numeric", "@attribute target numeric"],
              ["@relation main", "", "@attribute key_col numeric",
                "@attribute target numeric", "", "@data"], ["1,10", "2,20"]⟩
            ["@attribute add_col numeric"] (-1) "output.arff").1,
          (handle_arff_headers
            ⟨true, ["key_col", "target"],
              ["@attribute key_col numeric", "@attribute target numeric"],
              ["@relation main", "", "@attribute key_col numeric",
                "@attribute target numeric", "", "@data"], ["1,10", "2,20"]⟩
            ["@attribute add_col numeric"] (-1) "output.arff").2,
          .ok (outs, ws)⟩ ∧
      outs.length = 2 ∧ ws = ["Warning: key 2 does not have additional data row"] := by
  obtain ⟨outs, ws, h1, h2, _, _, h5⟩ :=
    C3_merge_missing_keys ["@relation main", "", "@attribute key_col numeric",
        "@attribute target numeric", "", "@data", "1,10", "2,20"]
      "output.arff" ["@attribute add_col numeric"] "1" ["11"] [("3", ["13"])] 0 (-1) ','
      ⟨true, ["key_col", "target"],
        ["@attribute key_col numeric", "@attribute target numeric"],
        ["@relation main", "", "@attribute key_col numeric",
          "@attribute target numeric", "", "@data"], ["1,10", "2,20"]⟩
      (by decide) (by decide) (by decide)
  exact ⟨outs, ws, h1, by simpa using h2, by rw [h5]; decide⟩

/-! ## Canonical headers: what a `create_metadata_rows` header scans back to -/

lemma relLine_data (rel : String) :
    ("@relation " ++ rel).data =
      '@' :: 'r' :: 'e' :: 'l' :: 'a' :: 't' :: 'i' :: 'o' :: 'n' :: ' ' :: rel.data := by
  rw [String.data_append]
  rfl

/-- Stripping is the identity on a string whose first and last characters
are not whitespace. -/
lemma pyStripChars_id (cs : List Char)
    (hhead : ∀ c ∈ cs.head?, isPySpace c = false)
    (hlast : ∀ c ∈ cs.getLast?, isPySpace c = false) :
    pyStripChars cs = cs := by
  cases cs with
  | nil => rfl
  | cons c cs' =>
    have hc : isPySpace c = false := hhead c rfl
    unfold pyStripChars
    rw [List.dropWhile_cons, hc]
    simp only [Bool.false_eq_true, if_false]
    cases hrev : (c :: cs').reverse with
    | nil => exact absurd hrev (by simp)
    | cons b bs =>
      have hb : (c :: cs').getLast? = some b := by
        rw [← List.head?_reverse, hrev]; rfl
      rw [List.dropWhile_cons, hlast b hb]
      simp only [Bool.false_eq_true, if_false]
      rw [← hrev, List.reverse_reverse]

lemma pyStrip_relLine (rel : String) (hrel : validRelName rel) :
    pyStrip ("@relation " ++ rel) = "@relation " ++ rel := by
  obtain ⟨hne, _, hnospace⟩ := hrel
  have h : pyStripChars (("@relation " ++ rel).data) = ("@relation " ++ rel).data := by
    apply pyStripChars_id
    · intro c hc
      rw [relLine_data] at hc
      cases hc
      rfl
    · intro c hc
      rw [relLine_data] at hc
      have hsplit : ('@' :: 'r' :: 'e' :: 'l' :: 'a' :: 't' :: 'i' :: 'o' :: 'n' :: ' ' :: rel.data) =
          ('@' :: 'r' :: 'e' :: 'l' :: 'a' :: 't' :: 'i' :: 'o' :: 'n' :: [' ']) ++ rel.data := rfl
      rw [hsplit, List.getLast?_append] at hc
      cases hgl : rel.data.getLast? with
      | none =>
        rw [List.getLast?_eq_none_iff] at hgl
        exact absurd hgl hne
      | some b =>
        rw [hgl] at hc
        cases hc
        exact hnospace c (List.mem_of_mem_getLast? (by rw [hgl]; rfl))
  show String.mk (pyStripChars ("@relation " ++ rel).data) = "@relation " ++ rel
  rw [h]

lemma relTailCandidates_self_mem : ∀ cs : List Char, cs ∈ relTailCandidates cs := by
  intro cs
  cases cs with
  | nil => simp [relTailCandidates]
  | cons c cs' =>
    by_cases h : isPySpace c = true <;> simp [relTailCandidates, h]

lemma commentMatch_relLine (rel : String) :
    commentMatch ("@relation " ++ rel) = false := by
  unfold commentMatch
  rw [relLine_data]
  rfl

lemma emptyMatch_relLine (rel : String) :
    emptyMatch ("@relation " ++ rel) = false := by
  unfold emptyMatch
  rw [relLine_data]
  simp [isPySpace]

lemma datametaMatch_relLine (rel : String) :
    datametaMatch ("@relation " ++ rel) = false := by
  unfold datametaMatch
  rw [relLine_data]
  rfl

lemma relationMatch_relLine (rel : String) (hrel : validRelName rel) :
    relationMatch ("@relation " ++ rel) = true := by
  obtain ⟨hne, hquote, hnospace⟩ := hrel
  unfold relationMatch
  rw [relLine_data]
  have hkw : matchKeywordCI "@relation".data
      ('@' :: 'r' :: 'e' :: 'l' :: 'a' :: 't' :: 'i' :: 'o' :: 'n' :: ' ' :: rel.data) =
      some (' ' :: rel.data) := rfl
  rw [hkw]
  rw [List.any_eq_true]
  refine ⟨rel.data, ?_, ?_⟩
  · have : relTailCandidates (' ' :: rel.data) =
        (' ' :: rel.data) :: relTailCandidates rel.data := by
      simp [relTailCandidates, isPySpace]
    rw [this]
    exact List.mem_cons_of_mem _ (relTailCandidates_self_mem rel.data)
  · unfold relAltMatch
    cases hd : rel.data with
    | nil => exact absurd hd hne
    | cons c cs =>
      have hc : c ≠ '\'' := by
        intro hcq
        apply hquote
        rw [hd, hcq]
        rfl
      have hcs : cs.all (fun x => !isPySpace x) = true := by
        rw [List.all_eq_true]
        intro x hx
        have := hnospace x (by rw [hd]; exact List.mem_cons_of_mem _ hx)
        simp [this]
      simp [relAltPlain, hc, hcs]

/-- The skip loop passes straight through a line that is neither a comment
nor whitespace-only. -/
lemma skipComments_cons (l : String) (ls : List String)
    (h1 : commentMatch (pyStrip l) = false) (h2 : emptyMatch (pyStrip l) = false) :
    skipComments (l :: ls) = ([], pyStrip l, ls) := by
  simp [skipComments, h1, h2]

lemma metaLoop_step_data (line : String) (rest n a m : List String)
    (h : datametaMatch line = true) :
    metaLoop line rest n a m = .ok (n, a, m, rest) := by
  rw [metaLoop.eq_def]
  simp [h]

lemma metaLoop_step_attr (line l : String) (ls n a m : List String) (nm : String)
    (hline : datametaMatch line = false) (hs : pyStrip l = l)
    (hattr : attributeMatch l = true) (hname : (pySplitWs l).get? 1 = some nm) :
    metaLoop line (l :: ls) n a m = metaLoop l ls (n ++ [nm]) (a ++ [l]) (m ++ [l]) := by
  have hname' : (pySplitWs l)[1]? = some nm := by
    rw [← List.get?_eq_getElem?]
    exact hname
  rw [metaLoop.eq_def]
  simp [hline, hs, hattr, hname']

lemma metaLoop_step_other (line l : String) (ls n a m : List String)
    (hline : datametaMatch line = false) (hs : pyStrip l = l)
    (hattr : attributeMatch l = false) :
    metaLoop line (l :: ls) n a m = metaLoop l ls n a (m ++ [l]) := by
  rw [metaLoop.eq_def]
  simp [hline, hs, hattr]

/-- The metadata loop over a canonical block of attribute lines followed by
a blank line and `@data`: every attribute line and its name are collected,
and the cursor stops right after `@data`. -/
lemma metaLoop_canonical :
    ∀ (attrs : List String), (∀ x ∈ attrs, canonicalAttrLine x) →
    ∀ (line : String) (rest names0 attrs0 metas0 : List String),
      datametaMatch line = false →
    metaLoop line (attrs ++ ["", "@data"] ++ rest) names0 attrs0 metas0 =
      .ok (names0 ++ attrs.map attrName, attrs0 ++ attrs,
           metas0 ++ attrs ++ ["", "@data"], rest) := by
  intro attrs
  induction attrs with
  | nil =>
    intro _ line rest names0 attrs0 metas0 hline
    simp only [List.nil_append, List.cons_append]
    rw [metaLoop_step_other line "" ("@data" :: rest) names0 attrs0 metas0
      hline (by decide) (by decide)]
    rw [metaLoop_step_other "" "@data" rest names0 attrs0 (metas0 ++ [""])
      (by decide) (by decide) (by decide)]
    rw [metaLoop_step_data "@data" rest names0 attrs0 ((metas0 ++ [""]) ++ ["@data"])
      (by decide)]
    simp
  | cons x attrs ih =>
    intro hcanon line rest names0 attrs0 metas0 hline
    obtain ⟨hs, hattr, hdata, _, hlen⟩ := hcanon x (List.mem_cons_self x attrs)
    have hname : (pySplitWs x).get? 1 = some (attrName x) := by
      unfold attrName
      rw [List.getD_eq_getD_get?]
      cases hx : (pySplitWs x).get? 1 with
      | none => rw [List.get?_eq_none] at hx; omega
      | some v => rfl
    simp only [List.cons_append]
    rw [metaLoop_step_attr line x (attrs ++ ["", "@data"] ++ rest) names0 attrs0 metas0
      (attrName x) hline hs hattr hname]
    rw [ih (fun y hy => hcanon y (List.mem_cons_of_mem x hy)) x rest _ _ _ hdata]
    simp

/-- Scanning a stream whose header was produced by `create_metadata_rows`
(for a valid relation name and canonical attribute lines) recovers the
attribute lines verbatim, reports exactly the header lines as
`all_metadata_lines`, and leaves the cursor on the first data row. -/
lemma scan_canonical (rel : String) (attrs : List String) (rest : List String)
    (hrel : validRelName rel) (hattrs : ∀ x ∈ attrs, canonicalAttrLine x) :
    get_metadata_if_arff (headerLines rel attrs ++ rest) =
      .ok ⟨true, attrs.map attrName, attrs, headerLines rel attrs, rest⟩ := by
  have hhead : headerLines rel attrs ++ rest =
      ("@relation " ++ rel) :: "" :: (attrs ++ ["", "@data"] ++ rest) := by
    simp [headerLines]
  rw [hhead]
  unfold get_metadata_if_arff
  rw [skipComments_cons _ _
    (by rw [pyStrip_relLine rel hrel]; exact commentMatch_relLine rel)
    (by rw [pyStrip_relLine rel hrel]; exact emptyMatch_relLine rel)]
  rw [pyStrip_relLine rel hrel]
  simp only [relationMatch_relLine rel hrel, if_true, List.nil_append]
  rw [metaLoop_step_other ("@relation " ++ rel) "" (attrs ++ ["", "@data"] ++ rest)
    [] [] ["@relation " ++ rel] (datametaMatch_relLine rel) (by decide) (by decide)]
  rw [metaLoop_canonical attrs hattrs "" rest _ _ _ (by decide)]
  simp [headerLines]

/-! ## Claim C1 -/

/-- Claim C1, counterexample: an ARFF input whose header has no blank lines
(`@relation r` / `@attribute a numeric` / `@data`).  The scanner extracts
the attribute line, but `create_metadata_rows` with the very same relation
name re-emits a five-line header (blank lines inserted around the attribute
block), which is not byte-identical to the three-line input header. -/
theorem C1_counterexample :
    get_metadata_if_arff ["@relation r", "@attribute a numeric", "@data", "1"] =
      .ok ⟨true, ["a"], ["@attribute a numeric"],
        ["@relation r", "@attribute a numeric", "@data"], ["1"]⟩ ∧
    String.join (create_metadata_rows "r" ["@attribute a numeric"]) ≠
      fileContent ["@relation r", "@attribute a numeric", "@data"] := by
  constructor
  · decide
  · decide

/-- Claim C1 as amended: the scan/emit round-trip is byte-identical exactly
on canonical headers — for a valid relation name and attribute lines in the
canonical emitted form, scanning a stream that begins with
`create_metadata_rows`'s output recovers `attribute_lines` verbatim,
consumes exactly the header lines, and re-emitting with the same relation
name reproduces those header bytes identically. -/
theorem C1_roundtrip_canonical (rel : String) (attrs rest : List String)
    (hrel : validRelName rel) (hattrs : ∀ x ∈ attrs, canonicalAttrLine x) :
    ∃ res, get_metadata_if_arff (headerLines rel attrs ++ rest) = .ok res ∧
      res.is_arff = true ∧ res.attr_lines = attrs ∧
      res.all_metadata_lines = headerLines rel attrs ∧
      res.rest = rest ∧
      create_metadata_rows rel res.attr_lines =
        res.all_metadata_lines.map (fun l => l ++ "\n") ∧
      String.join (create_metadata_rows rel res.attr_lines) =
        fileContent ((headerLines rel attrs ++ rest).take (headerLines rel attrs).length) := by
  refine ⟨_, scan_canonical rel attrs rest hrel hattrs, rfl, rfl, rfl, rfl, rfl, ?_⟩
  rw [List.take_left]
  rfl

/-- Claim C1, witness: a concrete canonical header round-trips. -/
theorem C1_witness :
    ∃ res, get_metadata_if_arff
        (headerLines "r" ["@attribute a numeric"] ++ ["1,2"]) = .ok res ∧
      res.is_arff = true ∧ res.attr_lines = ["@attribute a numeric"] ∧
      res.all_metadata_lines = headerLines "r" ["@attribute a numeric"] ∧
      res.rest = ["1,2"] ∧
      create_metadata_rows "r" res.attr_lines =
        res.all_metadata_lines.map (fun l => l ++ "\n") ∧
      String.join (create_metadata_rows "r" res.attr_lines) =
        fileContent ((headerLines "r" ["@attribute a numeric"] ++ ["1,2"]).take
          (headerLines "r" ["@attribute a numeric"]).length) :=
  C1_roundtrip_canonical "r" ["@attribute a numeric"] ["1,2"] (by decide) (by decide)

/-! ## Claim C6 -/

/-- Claim C6, counterexample: Split does not copy the source header
unmodified.  For a source with a comment line and relation name `src`, the
header written to an output named `out1.arff` is the regenerated canonical
header with relation name `out1` — the comment is dropped, blank lines are
inserted and the relation name is changed — and the remainder stream named
`rem.arff` even gets a different header than the first output. -/
theorem C6_counterexample :
    copy_metadata_if_arff
        ["% note", "@relation src", "@attribute a numeric", "@data", "1,x"]
        ["out1.arff", "rem.arff"] =
      .ok (true,
        [["@relation out1\n", "\n", "@attribute a numeric\n", "\n", "@data\n"],
         ["@relation rem\n", "\n", "@attribute a numeric\n", "\n", "@data\n"]],
        ["1,x"]) ∧
    (["@relation out1\n", "\n", "@attribute a numeric\n", "\n", "@data\n"] : List String) ≠
      (["% note", "@relation src", "@attribute a numeric", "@data"].map fun l => l ++ "\n") := by
  constructor
  · decide
  · decide

/-- Claim C6 as amended: when the source is ARFF, `set_up_and_do_split`
writes to every output stream, including the remainder, a regenerated ARFF
header — `create_metadata_rows` of the relation name derived from that
stream's file name and the source's attribute lines, the latter unmodified —
and that header is a prefix of the stream's content, so it precedes every
data row. -/
theorem C6_amended_header_to_every_stream (inLines : List String)
    (outNames : List String) (rmdrName : String) (delim : Char) (key_column : Nat)
    (key_sets : List (List String)) (res : ScanResult)
    (hscan : get_metadata_if_arff inLines = .ok res) (harff : res.is_arff = true)
    (hkeys : ∀ r ∈ res.rest.map (csvParse delim), key_column < r.length) :
    ∃ run, set_up_and_do_split inLines outNames rmdrName delim key_column key_sets = .ok run ∧
      run.outContents.length = outNames.length ∧
      (∀ i, i < outNames.length → ∃ dataRows,
        run.outContents.getD i [] =
          create_metadata_rows (remove_known_extensions (outNames.getD i ""))
            res.attr_lines ++ dataRows) ∧
      (∃ rmdrRows, run.rmdrContent =
        create_metadata_rows (remove_known_extensions rmdrName) res.attr_lines ++ rmdrRows) := by
  obtain ⟨evs, hevs, _, _⟩ :=
    split_file_events key_column key_sets (res.rest.map (csvParse delim)) hkeys
  refine ⟨⟨(List.range outNames.length).map fun i =>
      ((outNames ++ [rmdrName]).map fun nm =>
        create_metadata_rows (remove_known_extensions nm) res.attr_lines).getD i [] ++
        (streamOf i evs).map fun r => csvSerializeRow delim r ++ "\n",
    ((outNames ++ [rmdrName]).map fun nm =>
        create_metadata_rows (remove_known_extensions nm) res.attr_lines).getD
        outNames.length [] ++
        (remainderOf evs).map fun r => csvSerializeRow delim r ++ "\n"⟩, ?_, ?_, ?_, ?_⟩
  · unfold set_up_and_do_split copy_metadata_if_arff
    rw [hscan]
    simp only [harff, if_true, hevs]
  · simp
  · intro i hi
    refine ⟨(streamOf i evs).map fun r => csvSerializeRow delim r ++ "\n", ?_⟩
    have hr : ((List.range outNames.length).map fun i =>
        ((outNames ++ [rmdrName]).map fun nm =>
          create_metadata_rows (remove_known_extensions nm) res.attr_lines).getD i [] ++
          (streamOf i evs).map fun r => csvSerializeRow delim r ++ "\n").getD i [] =
        ((outNames ++ [rmdrName]).map fun nm =>
          create_metadata_rows (remove_known_extensions nm) res.attr_lines).getD i [] ++
          (streamOf i evs).map fun r => csvSerializeRow delim r ++ "\n" := by
      rw [List.getD_eq_getD_get?, List.get?_map, List.get?_range (by simpa using hi)]
      rfl
    rw [hr]
    have hg : ((outNames ++ [rmdrName]).map fun nm =>
        create_metadata_rows (remove_known_extensions nm) res.attr_lines).getD i [] =
        create_metadata_rows (remove_known_extensions (outNames.getD i "")) res.attr_lines := by
      rw [List.getD_eq_getD_get?, List.get?_map,
        List.get?_append (by simpa using hi), ← List.get?_map, ← List.getD_eq_getD_get?]
      rw [List.getD_eq_getD_get?, List.get?_map, List.getD_eq_getD_get?]
      cases hx : outNames.get? i with
      | none => rw [List.get?_eq_none] at hx; omega
      | some nm => rfl
    rw [hg]
  · refine ⟨(remainderOf evs).map fun r => csvSerializeRow delim r ++ "\n", ?_⟩
    have hg : ((outNames ++ [rmdrName]).map fun nm =>
        create_metadata_rows (remove_known_extensions nm) res.attr_lines).getD
          outNames.length [] =
        create_metadata_rows (remove_known_extensions rmdrName) res.attr_lines := by
      rw [List.getD_eq_getD_get?, List.get?_map,
        List.get?_append_right (Nat.le_refl _)]
      simp
    rw [hg]

/-- Claim C6, witness: a concrete one-set split of an ARFF source. -/
theorem C6_witness :
    ∃ run, set_up_and_do_split
        ["@relation src", "", "@attribute a numeric", "", "@data", "1,x"]
        ["out1.arff"] "rem.csv" ',' 0 [["1"]] = .ok run ∧
      run.outContents.length = 1 ∧
      (∀ i, i < 1 → ∃ dataRows,
        run.outContents.getD i [] =
          create_metadata_rows (remove_known_extensions (["out1.arff"].getD i ""))
            ["@attribute a numeric"] ++ dataRows) ∧
      (∃ rmdrRows, run.rmdrContent =
        create_metadata_rows (remove_known_extensions "rem.csv")
          ["@attribute a numeric"] ++ rmdrRows) :=
  C6_amended_header_to_every_stream
    ["@relation src", "", "@attribute a numeric", "", "@data", "1,x"]
    ["out1.arff"] "rem.csv" ',' 0 [["1"]]
    ⟨true, ["a"], ["@attribute a numeric"],
      ["@relation src", "", "@attribute a numeric", "", "@data"], ["1,x"]⟩
    (by decide) rfl (by decide)

/-! ## Select: identity selection -/

lemma splitOnCharAux_ne_nil (d : Char) : ∀ (cs acc : List Char),
    splitOnCharAux d cs acc ≠ [] := by
  intro cs
  induction cs with
  | nil => intro acc; simp [splitOnCharAux]
  | cons c cs ih =>
    intro acc
    by_cases h : c = d <;> simp [splitOnCharAux, h, ih]

lemma map_id_of_eq {α : Type} (f : α → α) : ∀ (l : List α), (∀ a ∈ l, f a = a) → l.map f = l := by
  intro l
  induction l with
  | nil => intro _; rfl
  | cons x xs ih =>
    intro h
    rw [List.map_cons, h x (List.mem_cons_self x xs),
      ih fun a ha => h a (List.mem_cons_of_mem x ha)]

lemma interChars_splitOnCharAux (d : Char) : ∀ (cs acc : List Char),
    interChars d (splitOnCharAux d cs acc) = acc.reverse ++ cs := by
  intro cs
  induction cs with
  | nil => intro acc; simp [splitOnCharAux, interChars]
  | cons c cs ih =>
    intro acc
    by_cases h : c = d
    · subst h
      have hstep : splitOnCharAux c (c :: cs) acc = acc.reverse :: splitOnCharAux c cs [] := by
        simp [splitOnCharAux]
      rw [hstep]
      cases hS : splitOnCharAux c cs [] with
      | nil => exact absurd hS (splitOnCharAux_ne_nil c cs [])
      | cons x xs =>
        have hic : interChars c (acc.reverse :: x :: xs) =
            acc.reverse ++ c :: interChars c (x :: xs) := rfl
        rw [hic, ← hS, ih []]
        simp
    · have hstep : splitOnCharAux d (c :: cs) acc = splitOnCharAux d cs (c :: acc) := by
        simp [splitOnCharAux, h]
      rw [hstep, ih (c :: acc)]
      rw [List.reverse_cons, List.append_assoc]
      rfl

/-- Parsing a (quoting-free) line and re-serializing it with the same
delimiter is the identity. -/
lemma csvSerializeRow_pySplitChar (d : Char) (s : String) :
    csvSerializeRow d (pySplitChar d s) = s := by
  unfold csvSerializeRow pySplitChar
  rw [List.map_map]
  have hm : (splitOnCharAux d s.data []).map (String.data ∘ fun cs => (⟨cs⟩ : String)) =
      splitOnCharAux d s.data [] := by
    apply map_id_of_eq
    intro cs _
    rfl
  rw [hm, interChars_splitOnCharAux d s.data []]
  rfl

lemma pyGet_append_cons (pre : List String) (x : String) (post : List String) :
    pyGet (pre ++ x :: post) (pre.length : Int) = some x := by
  unfold pyGet
  rw [if_pos (by omega)]
  rw [Int.toNat_natCast]
  rw [List.get?_append_right (Nat.le_refl _)]
  simp

lemma pyGetAll_range' : ∀ (post pre : List String),
    pyGetAll (pre ++ post) ((List.range' pre.length post.length).map fun (j : Nat) => (j : Int)) =
      some post := by
  intro post
  induction post with
  | nil => intro pre; simp [pyGetAll]
  | cons x xs ih =>
    intro pre
    rw [List.length_cons, List.range'_succ, List.map_cons]
    simp only [pyGetAll, pyGet_append_cons]
    have h : pre ++ x :: xs = (pre ++ [x]) ++ xs := by simp
    have h2 : pre.length + 1 = (pre ++ [x]).length := by simp
    rw [h, h2, ih (pre ++ [x])]

lemma pyGetAll_range (l : List String) :
    pyGetAll l ((List.range l.length).map fun (j : Nat) => (j : Int)) = some l := by
  have := pyGetAll_range' l []
  simpa [List.range_eq_range'] using this

/-- Column specs that parse as the consecutive integers `k, k+1, ...`
resolve to exactly those positions, for any header. -/
lemma resolveAll_int_specs : ∀ (col_strs : List String) (k : Nat) (b : Bool)
    (names : List String),
    (∀ j, j < col_strs.length → pyInt (col_strs.getD j "") = some ((k + j : Nat) : Int)) →
    resolveAll col_strs b names = .ok ((List.range' k col_strs.length).map fun (j : Nat) => (j : Int)) := by
  intro col_strs
  induction col_strs with
  | nil => intro k b names _; rfl
  | cons c cs ih =>
    intro k b names h
    have h0 : pyInt c = some ((k : Nat) : Int) := by
      have := h 0 (by simp)
      simpa using this
    have hc : get_column_to_select c b names = .ok ((k : Nat) : Int) := by
      simp [get_column_to_select, h0]
    have hrest : resolveAll cs b names =
        .ok ((List.range' (k + 1) cs.length).map fun (j : Nat) => (j : Int)) := by
      apply ih (k + 1) b names
      intro j hj
      have := h (j + 1) (by simpa using Nat.succ_lt_succ hj)
      have harith : k + (j + 1) = (k + 1) + j := by omega
      rw [List.getD_cons_succ] at this
      rw [← harith]
      exact this
    simp only [resolveAll, hc, hrest]
    rw [List.length_cons, List.range'_succ, List.map_cons]

/-- The row loop of `select` under identity columns: every (nonempty,
width-`n`) line is parsed, projected onto all its fields in order, and
serialized back to itself. -/
lemma selectRows_identity (n : Nat) : ∀ (dataLines : List String),
    (∀ l ∈ dataLines, l ≠ "" ∧ (pySplitChar ',' l).length = n) →
    selectRows ',' ((List.range n).map fun (j : Nat) => (j : Int)) (dataLines.map (csvParse ',')) =
      (dataLines.map fun l => l ++ "\n", false) := by
  intro dataLines
  induction dataLines with
  | nil => intro _; rfl
  | cons l ls ih =>
    intro h
    obtain ⟨hne, hlen⟩ := h l (List.mem_cons_self l ls)
    have hparse : csvParse ',' l = pySplitChar ',' l := by
      unfold csvParse
      rw [if_neg hne]
    have hget : pyGetAll (pySplitChar ',' l) ((List.range n).map fun (j : Nat) => (j : Int)) =
        some (pySplitChar ',' l) := by
      rw [← hlen]
      exact pyGetAll_range (pySplitChar ',' l)
    simp only [List.map_cons, selectRows, hparse, hget]
    rw [ih fun x hx => h x (List.mem_cons_of_mem l hx)]
    rw [csvSerializeRow_pySplitChar]

/-- Renaming the relation of a canonical file replaces exactly the relation
line. -/
lemma renameRelation_canonical (rel newRel : String) (attrs dataLines : List String)
    (hrel : validRelName rel) (hattrs : ∀ x ∈ attrs, canonicalAttrLine x)
    (hdata : ∀ l ∈ dataLines, relationMatch (pyStrip l) = false) :
    renameRelation (headerLines rel attrs ++ dataLines) newRel =
      headerLines newRel attrs ++ dataLines := by
  unfold renameRelation headerLines
  simp only [List.map_append]
  have h1 : (["@relation " ++ rel, ""].map fun l =>
      if relationMatch (pyStrip l) then "@relation " ++ newRel else l) =
      ["@relation " ++ newRel, ""] := by
    simp only [List.map_cons, List.map_nil]
    rw [pyStrip_relLine rel hrel, relationMatch_relLine rel hrel]
    simp [(by decide : relationMatch (pyStrip "") = false)]
  have h2 : (attrs.map fun l =>
      if relationMatch (pyStrip l) then "@relation " ++ newRel else l) = attrs := by
    apply map_id_of_eq
    intro a ha
    obtain ⟨hs, _, _, hrm, _⟩ := hattrs a ha
    simp [hs, hrm]
  have h3 : ((["", "@data"] : List String).map fun l =>
      if relationMatch (pyStrip l) then "@relation " ++ newRel else l) = ["", "@data"] := by
    apply map_id_of_eq
    intro a ha
    have hfalse : relationMatch (pyStrip a) = false := by
      rcases List.mem_cons.1 ha with rfl | h'
      · decide
      · rcases List.mem_cons.1 h' with rfl | h''
        · decide
        · exact absurd h'' (List.not_mem_nil a)
    simp [hfalse]
  have h4 : (dataLines.map fun l =>
      if relationMatch (pyStrip l) then "@relation " ++ newRel else l) = dataLines := by
    apply map_id_of_eq
    intro a ha
    simp [hdata a ha]
  rw [h1, h2, h3, h4]

/-! ## Claim C9 -/

/-- Claim C9, counterexample: `select` is not input-preserving modulo
relation-name substitution on general ARFF inputs.  For an input whose
header has no blank lines, selecting its only column (spec `"0"`) succeeds
but emits a six-line output; no relation-name substitution of the four-line
input can equal it. -/
theorem C9_counterexample :
    (select ["@relation foo", "@attribute col0 numeric", "@data", "1"]
      ["0"] ',' ',' none).2 = .ok () ∧
    ¬ ∃ rel, (select ["@relation foo", "@attribute col0 numeric", "@data", "1"]
        ["0"] ',' ',' none).1 =
      (renameRelation ["@relation foo", "@attribute col0 numeric", "@data", "1"] rel).map
        fun l => l ++ "\n" := by
  constructor
  · decide
  · rintro ⟨rel, h⟩
    have hlen6 : (select ["@relation foo", "@attribute col0 numeric", "@data", "1"]
        ["0"] ',' ',' none).1.length = 6 := by decide
    have hlen4 : ((renameRelation ["@relation foo", "@attribute col0 numeric", "@data", "1"]
        rel).map fun l => l ++ "\n").length = 4 := by
      simp [renameRelation]
    rw [h, hlen4] at hlen6
    exact absurd hlen6 (by decide)

/-- Claim C9 as amended: identity selection reproduces the input modulo
relation-name substitution exactly on canonical inputs — an ARFF whose
header is in the canonical emitted form and whose data rows are nonempty,
rectangular of the header's width, quoting-free and not relation-shaped.
Selecting columns that resolve to `0, 1, ..., n-1` (in order, with equal
input and output delimiters) writes back the input lines byte-for-byte with
only the relation name replaced by the output-derived one. -/
theorem C9_identity_selection (rel : String) (attrs dataLines col_strs : List String)
    (nm : String)
    (hrel : validRelName rel) (hattrs : ∀ x ∈ attrs, canonicalAttrLine x)
    (hdata : ∀ l ∈ dataLines, l ≠ "" ∧ (pySplitChar ',' l).length = attrs.length ∧
      relationMatch (pyStrip l) = false)
    (hcols : col_strs.length = attrs.length)
    (hres : ∀ j, j < col_strs.length → pyInt (col_strs.getD j "") = some ((j : Nat) : Int)) :
    select (headerLines rel attrs ++ dataLines) col_strs ',' ',' (some nm) =
      ((renameRelation (headerLines rel attrs ++ dataLines)
          (remove_known_file_extensions nm)).map fun l => l ++ "\n",
        .ok ()) := by
  have h0 : ∀ j, j < col_strs.length → pyInt (col_strs.getD j "") = some ((0 + j : Nat) : Int) := by
    intro j hj
    simpa using hres j hj
  have hresolve : resolveAll col_strs true (attrs.map attrName) =
      .ok ((List.range attrs.length).map fun (j : Nat) => (j : Int)) := by
    rw [resolveAll_int_specs col_strs 0 true (attrs.map attrName) h0, hcols,
      List.range_eq_range']
  have hsel : pyGetAll attrs ((List.range attrs.length).map fun (j : Nat) => (j : Int)) =
      some attrs := by
    have := pyGetAll_range attrs
    exact this
  have hrows := selectRows_identity attrs.length dataLines
    fun l hl => ⟨(hdata l hl).1, (hdata l hl).2.1⟩
  unfold select
  rw [scan_canonical rel attrs dataLines hrel hattrs]
  simp only [hresolve, hsel, hrows]
  rw [renameRelation_canonical rel (remove_known_file_extensions nm) attrs dataLines hrel
    hattrs fun l hl => (hdata l hl).2.2]
  simp [create_metadata_rows, headerLines]

/-- Claim C9, witness: identity selection on a concrete canonical
one-column ARFF. -/
theorem C9_witness :
    select (headerLines "foo" ["@attribute col0 numeric"] ++ ["1", "2"])
        ["0"] ',' ',' (some "out.csv") =
      ((renameRelation (headerLines "foo" ["@attribute col0 numeric"] ++ ["1", "2"])
          (remove_known_file_extensions "out.csv")).map fun l => l ++ "\n",
        .ok ()) :=
  C9_identity_selection "foo" ["@attribute col0 numeric"] ["1", "2"] ["0"] "out.csv"
    (by decide) (by decide) (by decide) (by decide) (by decide)

end Arffutils
